import Mathlib

/-!
Shallow embedding of the High-Performance-HTTP-Webserver sources
(http-server.cc, http-server.h, thread-pool.cc, and the epoll variant of the
server embedded in the repository README) together with theorems settling the
frozen claims about the specification.

Strings are modelled as List Char.  size_t values are modelled as Nat with the
wrap-around of C++ unsigned arithmetic made explicit modulo 2^64;
std::string::npos is 2^64 - 1.  Fallible C++ calls (std::stoul, which throws)
are modelled with Option.
-/

/-- Word size of size_t on the target platform (64-bit Linux). -/
def WSIZE : Nat := 18446744073709551616

/-- Model of std::string::npos, the value of size_t(-1). -/
def npos : Nat := 18446744073709551615

/-- Unsigned 64-bit subtraction a - b as C++ computes it on size_t values
(both operands below 2^64). -/
def sub64 (a b : Nat) : Nat := (a + WSIZE - b) % WSIZE

/-- ASCII tolower as used by the C++ sources (std::tolower / ::tolower in the
default locale on the ASCII range). -/
def toLowerC (c : Char) : Char :=
  if 65 ≤ c.toNat ∧ c.toNat ≤ 90 then Char.ofNat (c.toNat + 32) else c

/-- Whitespace predicate of std::isspace in the default locale, used by the
strtoul family before the digits. -/
def isSpaceC (c : Char) : Bool :=
  c == ' ' || c == '\t' || c == '\n' || c == '\x0b' || c == '\x0c' || c == '\r'

def isDigitC (c : Char) : Bool := '0' ≤ c && c ≤ '9'

def isHexDigitC (c : Char) : Bool :=
  isDigitC c || ('a' ≤ c && c ≤ 'f') || ('A' ≤ c && c ≤ 'F')

def decDigitVal (c : Char) : Nat := c.toNat - 48

def hexDigitVal (c : Char) : Nat :=
  if isDigitC c then c.toNat - 48
  else if 'a' ≤ c && c ≤ 'f' then c.toNat - 87
  else c.toNat - 55

def decDigitsToNat (ds : List Char) : Nat :=
  ds.foldl (fun a c => a * 10 + decDigitVal c) 0

def hexDigitsToNat (ds : List Char) : Nat :=
  ds.foldl (fun a c => a * 16 + hexDigitVal c) 0

/-- Model of std::stoul(s) with base 10: optional leading whitespace, optional
sign, then decimal digits.  Returns none when no digits can be parsed
(std::invalid_argument) or when the digit string exceeds ULONG_MAX
(std::out_of_range).  A minus sign negates the value in unsigned arithmetic,
exactly as strtoul does. -/
def stoulM (s : List Char) : Option Nat :=
  let s1 := s.dropWhile isSpaceC
  let signed : Bool × List Char :=
    match s1 with
    | '-' :: r => (true, r)
    | '+' :: r => (false, r)
    | r => (false, r)
  let ds := signed.2.takeWhile isDigitC
  if ds.isEmpty then none
  else
    let v := decDigitsToNat ds
    if npos < v then none
    else some (if signed.1 then (WSIZE - v % WSIZE) % WSIZE else v)

/-- Model of std::stoul(s, nullptr, 16): like stoulM but hexadecimal, and an
optional 0x or 0X prefix is consumed when a hex digit follows it. -/
def stoul16 (s : List Char) : Option Nat :=
  let s1 := s.dropWhile isSpaceC
  let signed : Bool × List Char :=
    match s1 with
    | '-' :: r => (true, r)
    | '+' :: r => (false, r)
    | r => (false, r)
  let body :=
    match signed.2 with
    | '0' :: x :: r =>
      if (x == 'x' || x == 'X') &&
          (match r with | c :: _ => isHexDigitC c | [] => false)
      then r else signed.2
    | r => r
  let ds := body.takeWhile isHexDigitC
  if ds.isEmpty then none
  else
    let v := hexDigitsToNat ds
    if npos < v then none
    else some (if signed.1 then (WSIZE - v % WSIZE) % WSIZE else v)

/-- Helper for strFindFrom: scan the suffixes of t, whose first element sits at
index j of the underlying string, for the first suffix that starts with pat. -/
def strFindAux (pat : List Char) : List Char → Nat → Option Nat
  | [], j => if pat = [] then some j else none
  | c :: t, j =>
    if pat.isPrefixOf (c :: t) then some j else strFindAux pat t (j + 1)

/-- Model of std::string::find(pat, i) on s: the smallest index j with i ≤ j at
which pat occurs in s, and npos when there is none or when i exceeds the size
of s. -/
def strFindFrom (s pat : List Char) (i : Nat) : Nat :=
  if i ≤ s.length then
    match strFindAux pat (s.drop i) i with
    | some j => j
    | none => npos
  else npos

/-- Model of std::string substr(pos, count): the characters from index pos,
at most count of them.  All call sites in the embedded code have pos at most
the size of the string, where this model agrees with C++ (C++ throws
out_of_range for larger pos). -/
def substrM (s : List Char) (pos count : Nat) : List Char :=
  (s.drop pos).take count

/-- Parsed HTTP request record, from struct HTTPRequest in http-server.h. -/
structure HTTPRequest where
  method : List Char
  path : List Char
  version : List Char
  body : List Char
deriving Repr, DecidableEq

def crlfB : List Char := ("\r\n").toList

def delimB : List Char := ("\r\n\r\n").toList

/-- Embedding of parse_http_request from http-server.cc.  The C++ performs no
validation: find may return npos and the subsequent size_t arithmetic wraps
modulo 2^64, which this definition reproduces exactly. -/
def parse_http_request (request : List Char) : HTTPRequest :=
  let method_end := strFindFrom request [' '] 0
  let path_end := strFindFrom request [' '] ((method_end + 1) % WSIZE)
  let version_end := strFindFrom request crlfB ((path_end + 1) % WSIZE)
  let body_start := strFindFrom request delimB 0
  { method := substrM request 0 method_end
    path := substrM request ((method_end + 1) % WSIZE) (sub64 (sub64 path_end method_end) 1)
    version := substrM request ((path_end + 1) % WSIZE) (sub64 (sub64 version_end path_end) 1)
    body := if body_start ≠ npos then substrM request (body_start + 4) npos else [] }

example :
    parse_http_request ("GET /status HTTP/1.1\r\nHost: x\r\n\r\n").toList =
      { method := ("GET").toList, path := ("/status").toList,
        version := ("HTTP/1.1").toList, body := [] } := by decide

example :
    parse_http_request ("GETindex\r\n").toList =
      { method := ("GETindex\r\n").toList, path := ("GETindex\r\n").toList,
        version := ("GETindex").toList, body := [] } := by decide

/-! Header lookup.  The repository holds two implementations of
get_header_value: the line-based string_view one of the epoll server (README
variant) and an older substring-search one in http-server.cc.  Both are
embedded, the second under the name get_header_value_cc. -/

/-- Split a string at its first CRLF occurrence: some (line, rest) when a CRLF
exists, none otherwise.  This mirrors find of the two-character string
followed by taking the text before it and skipping it. -/
def findCRLF : List Char → Option (List Char × List Char)
  | [] => none
  | c :: rest =>
    if c = '\r' ∧ rest.head? = some '\n' then some ([], rest.tail)
    else
      match findCRLF rest with
      | none => none
      | some (l, r) => some (c :: l, r)

theorem findCRLF_eq_some {s l r : List Char} (h : findCRLF s = some (l, r)) :
    s = l ++ '\r' :: '\n' :: r := by
  induction s generalizing l r with
  | nil => simp [findCRLF] at h
  | cons c rest ih =>
    by_cases hc : c = '\r' ∧ rest.head? = some '\n'
    · simp only [findCRLF, if_pos hc] at h
      obtain ⟨rfl, rfl⟩ : ([] : List Char) = l ∧ rest.tail = r := by
        constructor <;> (injection h with h'; cases h'; rfl)
      obtain ⟨hc1, hc2⟩ := hc
      cases rest with
      | nil => simp at hc2
      | cons d t =>
        simp only [List.head?] at hc2
        injection hc2 with hd
        simp [hc1, hd]
    · simp only [findCRLF, if_neg hc] at h
      cases hfr : findCRLF rest with
      | none => rw [hfr] at h; exact absurd h (by simp)
      | some p =>
        obtain ⟨l', r'⟩ := p
        rw [hfr] at h
        injection h with h'
        injection h' with h1 h2
        subst h1; subst h2
        simp [ih hfr]

/-- Does the line-match test of the string_view get_header_value succeed:
the line is at least as long as the name, agrees with it case-insensitively on
that prefix, and the character right after that prefix is a colon. -/
def header_line_matches (line name : List Char) : Bool :=
  decide (name.length ≤ line.length) &&
    ((line.take name.length).map toLowerC == name.map toLowerC) &&
    ((line.drop name.length).head? == some ':')

/-- Value the string_view get_header_value extracts from a matching line: the
text after the colon with leading spaces and tabs stripped. -/
def header_line_value (line name : List Char) : List Char :=
  (line.drop (name.length + 1)).dropWhile (fun c => c == ' ' || c == '\t')

/-- Embedding of the line-based, zero-copy get_header_value of the epoll
server (README variant): walk the CRLF-delimited lines, return the trimmed
value of the first line passing the match test, and the empty string when the
lines run out (in particular a trailing segment with no CRLF terminator is
never examined, because find of CRLF fails there and the loop breaks). -/
def get_header_value (headers name : List Char) : List Char :=
  match h : findCRLF headers with
  | none => []
  | some (line, rest) =>
    if header_line_matches line name then header_line_value line name
    else get_header_value rest name
termination_by headers.length
decreasing_by
  have := findCRLF_eq_some h
  subst this
  simp
  omega

/-- First-match-by-lines reading of the claim about find_header: scan the
list of header lines in order and return the trimmed value of the first line
matching the name, or the empty (not-found) value. -/
def find_header_spec (lines : List (List Char)) (name : List Char) : List Char :=
  match lines with
  | [] => []
  | l :: ls =>
    if header_line_matches l name then header_line_value l name
    else find_header_spec ls name

/-- Concatenate header lines, terminating every line with CRLF. -/
def joinCRLF (lines : List (List Char)) : List Char :=
  lines.foldr (fun l acc => l ++ '\r' :: '\n' :: acc) []

/-- Does the string contain a CRLF pair anywhere. -/
def containsCRLF : List Char → Bool
  | [] => false
  | c :: rest => (c == '\r' && rest.head? == some '\n') || containsCRLF rest

/-- Embedding of the older get_header_value of http-server.cc: lower-case the
query, locate that exact text anywhere in the block, find a colon from one
before the end of the located text, skip spaces and tabs, and return the text
up to the next CRLF; every failed lookup returns the empty string. -/
def get_header_value_cc (headers name : List Char) : List Char :=
  let search := name.map toLowerC
  let pos := strFindFrom headers search 0
  if pos = npos then []
  else
    let start := pos + search.length
    let colon := strFindFrom headers [':'] (sub64 start 1)
    if colon = npos then []
    else
      let start2 := colon + 1 +
        ((headers.drop (colon + 1)).takeWhile (fun c => c == ' ' || c == '\t')).length
      let e := strFindFrom headers crlfB start2
      if e = npos then []
      else substrM headers start2 (e - start2)

example :
    get_header_value_cc ("POST / HTTP/1.1\r\ncontent-length: abc\r\nhost: x").toList
      ("content-length").toList = ("abc").toList := by decide

example :
    get_header_value_cc ("POST / HTTP/1.1\r\nContent-Length: 5\r\nhost: x").toList
      ("content-length").toList = [] := by decide

/-! Chunked-terminator detection of the epoll server. -/

def ztermB : List Char := ("0\r\n\r\n").toList

def crlfztermB : List Char := ("\r\n0\r\n\r\n").toList

/-- Embedding of body_contains_chunked_terminator (README variant): false when
the buffer is shorter than the header end; true when the five bytes starting
at header_end are the terminator, or when the seven-byte sequence CRLF 0 CRLF
CRLF occurs anywhere at or after header_end. -/
def body_contains_chunked_terminator (msg : List Char) (header_end : Nat) : Bool :=
  if msg.length < header_end then false
  else
    (if header_end + 5 ≤ msg.length then (msg.drop header_end).take 5 == ztermB
     else false)
    || !(strFindFrom msg crlfztermB header_end == npos)

example :
    body_contains_chunked_terminator ("GET / HTTP/1.1\r\n\r\n0\r\n\r\n").toList 18 = true := by
  decide

example :
    body_contains_chunked_terminator
      ("GET / HTTP/1.1\r\n\r\n5\r\nhello\r\n0\r\n\r\n").toList 18 = true := by decide

example :
    body_contains_chunked_terminator ("GET / HTTP/1.1\r\n\r\n5\r\nhel").toList 18 = false := by
  decide

/-! Routing and response generation. -/

/-- Route record of http-server.h; the handler is an opaque function from
method and path to the full response string. -/
structure RouteM where
  method : List Char
  path : List Char
  handler : List Char → List Char → List Char

/-- The 404 fallback literal of HttpServer get_response. -/
def notFound404 : List Char :=
  ("HTTP/1.1 404 Not Found\r\nContent-Type: text/plain\r\nContent-Length: 13\r\n\r\n404 Not Found").toList

/-- The for-loop of get_response: the response starts as the fallback and the
first route whose method and path both equal the parsed ones overwrites it,
after which the loop breaks. -/
def route_loop (m p response : List Char) : List RouteM → List Char
  | [] => response
  | r :: rs => if r.method = m ∧ r.path = p then r.handler m p else route_loop m p response rs

/-- Embedding of HttpServer get_response: parse the request, then dispatch on
the route table with the 404 literal as the fallback. -/
def get_response (routes : List RouteM) (request : List Char) : List Char :=
  let req := parse_http_request request
  route_loop req.method req.path notFound404 routes

/-! The per-connection framing state machine of the epoll server
(README variant, HttpServer main_loop and struct ActiveConnData). -/

inductive HTTP_REQ_TYPE where
  | UNKNOWN
  | NO_BODY
  | CHUNKED
  | CONTENT_LENGTH
deriving Repr, DecidableEq

/-- Per-connection state, from struct ActiveConnData of the epoll variant. -/
structure ActiveConnData where
  msg : List Char
  header_end_pos : Nat
  req_type : HTTP_REQ_TYPE
  content_length : Nat
deriving Repr, DecidableEq

def teHdrName : List Char := ("Transfer-Encoding").toList

def clHdrName : List Char := ("Content-Length").toList

def chunkedB : List Char := ("chunked").toList

/-- State 1 of main_loop: while the request type is UNKNOWN, look for the end
of the headers; once found, record the body offset and classify the framing
from Transfer-Encoding and Content-Length.  The call std::stoul on the
Content-Length value throws on failure and no handler catches it, modelled by
none.  The buffer-reserve optimization has no observable effect on the state
and is omitted. -/
def conn_classify (d : ActiveConnData) : Option ActiveConnData :=
  if d.req_type = HTTP_REQ_TYPE.UNKNOWN then
    let header_pos := strFindFrom d.msg delimB 0
    if header_pos ≠ npos then
      let hep := header_pos + 4
      let headers := d.msg.take (header_pos + 2)
      let te := get_header_value headers teHdrName
      let cl := get_header_value headers clHdrName
      if strFindFrom te chunkedB 0 ≠ npos then
        some { d with header_end_pos := hep, req_type := HTTP_REQ_TYPE.CHUNKED }
      else if cl ≠ [] then
        match stoulM cl with
        | some n =>
          some { d with header_end_pos := hep, req_type := HTTP_REQ_TYPE.CONTENT_LENGTH,
                        content_length := n }
        | none => none
      else some { d with header_end_pos := hep, req_type := HTTP_REQ_TYPE.NO_BODY }
    else some d
  else some d

/-- States 2 and 3 of main_loop: is the buffered request complete.  The
CONTENT_LENGTH comparison msg.size() >= header_end_pos + content_length is
computed on size_t, so the sum wraps modulo 2^64 (content_length can reach
2^64 - 1 through stoul of a negative Content-Length value). -/
def request_complete_check (d : ActiveConnData) : Bool :=
  match d.req_type with
  | HTTP_REQ_TYPE.CONTENT_LENGTH =>
    (d.header_end_pos + d.content_length) % WSIZE ≤ d.msg.length
  | HTTP_REQ_TYPE.CHUNKED => body_contains_chunked_terminator d.msg d.header_end_pos
  | HTTP_REQ_TYPE.NO_BODY => true
  | HTTP_REQ_TYPE.UNKNOWN => false

/-- One readiness event of main_loop for a connection: append the drained
bytes, run the State 1 classification, then the completion check.  The Bool is
request_is_complete; none models the uncaught stoul exception. -/
def conn_step (d : ActiveConnData) (incoming : List Char) : Option (ActiveConnData × Bool) :=
  match conn_classify { d with msg := d.msg ++ incoming } with
  | none => none
  | some d2 => some (d2, request_complete_check d2)

/-- Run the connection over a sequence of byte arrivals: the connection is
closed (and the state discarded) as soon as a request completes, and none
models the uncaught stoul exception. -/
def conn_run (d : ActiveConnData) : List (List Char) → Option ActiveConnData
  | [] => some d
  | a :: as =>
    match conn_step d a with
    | none => none
    | some (d2, true) => some d2
    | some (d2, false) => conn_run d2 as

/-! The blocking read path of http-server.cc: read_full_request and the two
body readers.  The network is modelled as the list of bytes the peer will
deliver before closing; recv of k bytes hands over min k (bytes left), and an
empty remainder is a recv return of zero (peer closed). -/

/-- Embedding of read_request_body_chunked's reading loop: repeatedly take a
size line up to CR, require LF, parse the size as hex, stop on a zero size or
any failure, otherwise append exactly that many bytes when they all arrive and
skip the trailing CRLF.  acc is the request buffer so far; the returned value
is the final request buffer (the leftover network bytes are never looked at
again because the caller responds and closes). -/
theorem dropWhile_length_le {α : Type} (p : α → Bool) (l : List α) :
    (l.dropWhile p).length ≤ l.length := by
  induction l with
  | nil => simp [List.dropWhile]
  | cons a l ih =>
    by_cases hp : p a = true
    · simp [List.dropWhile, hp]; omega
    · simp [List.dropWhile, hp]

def read_chunked_loop (net acc : List Char) : List Char :=
  let size_line := net.takeWhile (fun c => c != '\r')
  match h : net.dropWhile (fun c => c != '\r') with
  | [] => acc
  | _ :: rest1 =>
    match h1 : rest1 with
    | [] => acc
    | c :: rest2 =>
      if c ≠ '\n' then acc
      else
        match stoul16 size_line with
        | none => acc
        | some 0 => acc
        | some (Nat.succ k) =>
          let m := Nat.succ k
          let acc2 := if m ≤ rest2.length then acc ++ rest2.take m else acc
          read_chunked_loop ((rest2.drop m).drop 2) acc2
termination_by net.length
decreasing_by
  have hle := dropWhile_length_le (fun c => c != '\r') net
  rw [h] at hle
  simp at hle ⊢
  omega

def teLowName : List Char := ("transfer-encoding").toList

def clLowName : List Char := ("content-length").toList

/-- Everything read_full_request does after its header loop found the CRLF
CRLF delimiter within bounds (http-server.cc lines 295 through 327): split
headers from the pre-read body, truncate the buffer to the delimiter, then
dispatch on Transfer-Encoding and Content-Length.  A Content-Length value
std::stoul rejects is caught and the headers-only buffer is returned as is;
otherwise read_request_body appends the pre-read bytes plus up to the
remaining declared count from the network. -/
def read_full_request_tail (request_buffer net : List Char) : List Char :=
  let dpos := strFindFrom request_buffer delimB 0
  let headers_only := request_buffer.take dpos
  let pre_read := request_buffer.drop (dpos + 4)
  let rb := request_buffer.take (dpos + 4)
  let te := get_header_value_cc headers_only teLowName
  if strFindFrom te chunkedB 0 ≠ npos then
    read_chunked_loop net (rb ++ pre_read)
  else
    let cl := get_header_value_cc headers_only clLowName
    if cl ≠ [] then
      match stoulM cl with
      | none => rb
      | some n => rb ++ pre_read ++ net.take (n - pre_read.length)
    else rb

/-- Why the header loop of read_full_request stopped. -/
inductive HdrExit where
  | eof
  | maxed
  | found
deriving Repr, DecidableEq

/-- The header loop of read_full_request: while the buffer is below
MAX_REQUEST_SIZE (65536), recv up to min BUFFER_SIZE (1024) and the room left,
append, and search for CRLF CRLF starting three bytes before the old end.
Returns the buffer, the unread network bytes, and the exit reason. -/
def read_headers_loop (buf net : List Char) : List Char × List Char × HdrExit :=
  if h65 : buf.length < 65536 then
    if hne : net = [] then (buf, [], HdrExit.eof)
    else
      if 4 ≤ (buf ++ net.take (min 1024 (65536 - buf.length))).length ∧
          strFindFrom (buf ++ net.take (min 1024 (65536 - buf.length))) delimB
            (if 3 ≤ buf.length then buf.length - 3 else 0) ≠ npos then
        (buf ++ net.take (min 1024 (65536 - buf.length)),
          net.drop (min 1024 (65536 - buf.length)), HdrExit.found)
      else
        read_headers_loop (buf ++ net.take (min 1024 (65536 - buf.length)))
          (net.drop (min 1024 (65536 - buf.length)))
  else (buf, net, HdrExit.maxed)
termination_by net.length
decreasing_by
  simp only [List.length_drop]
  have h1 : 0 < net.length := List.length_pos.mpr hne
  omega

/-- Embedding of HttpServer read_full_request of http-server.cc: run the
header loop; a peer close or a buffer at the maximum returns the buffer as is,
and otherwise the post-header processing runs. -/
def read_full_request (net : List Char) : List Char :=
  match read_headers_loop [] net with
  | (buf, _, HdrExit.eof) => buf
  | (buf, _, HdrExit.maxed) => buf
  | (buf, rest, HdrExit.found) =>
    if 65536 ≤ buf.length then buf else read_full_request_tail buf rest

/-! Worker pool of thread-pool.cc, as a transition system.  One worker thread
runs worker_loop; the master may submit tasks (enqueue) and call shutdown.
Tasks are identified by numbers.  A worker step is one pass through the
worker_loop body: the check of the while condition, the condition-variable
wait with its predicate, the conditional return, and the dequeue-and-execute,
the last of which happens to exit the loop whenever the stop flag was already
set when the task was taken (the while condition is re-checked right after the
task runs and the flag can only go from false to true).  A blocked worker
(stop flag clear and empty queue) does not change the state. -/

structure PoolState where
  queue : List Nat
  stopFlag : Bool
  executed : List Nat
  workerDone : Bool
  submitted : List Nat
deriving Repr, DecidableEq

inductive PoolEvent where
  | submit (t : Nat)
  | shutdown
  | workerStep
deriving Repr, DecidableEq

def poolInit : PoolState :=
  { queue := [], stopFlag := false, executed := [], workerDone := false, submitted := [] }

/-- One labelled transition of the pool model.  submit mirrors ThreadPool
enqueue, which throws when the stop flag is set and otherwise appends to the
queue; shutdown mirrors the compare-exchange that sets the stop flag;
workerStep mirrors one iteration of worker_loop as described above. -/
def pool_step (s : PoolState) (e : PoolEvent) : PoolState :=
  match e with
  | PoolEvent.submit t =>
    if s.stopFlag then s
    else { s with queue := s.queue ++ [t], submitted := s.submitted ++ [t] }
  | PoolEvent.shutdown => { s with stopFlag := true }
  | PoolEvent.workerStep =>
    if s.workerDone then s
    else
      match s.queue with
      | [] =>
        if s.stopFlag then { s with workerDone := true } else s
      | t :: rest =>
        let s2 := { s with queue := rest, executed := s.executed ++ [t] }
        if s.stopFlag then { s2 with workerDone := true } else s2

def pool_run (events : List PoolEvent) : PoolState :=
  events.foldl pool_step poolInit

/-- Transcription of claim C2's wording about chunked completion, for
comparison with the code: the terminator appears at or after header_end either
as the entire body (the body is exactly the five terminator bytes) or as a
suffix of the buffer preceded by CRLF (the terminator's start position, the
length minus five, being at or after header_end). -/
def chunked_complete_claim (msg : List Char) (he : Nat) : Bool :=
  (msg.drop he == ztermB) ||
  (decide (7 ≤ msg.length) && (msg.drop (msg.length - 7) == crlfztermB) &&
    decide (he + 5 ≤ msg.length))

/-! Characterization of the find model, used to relate the searching code to
positional statements about occurrences. -/

theorem strFindAux_some {pat t : List Char} {j r : Nat}
    (h : strFindAux pat t j = some r) :
    j ≤ r ∧ r - j ≤ t.length ∧ pat.isPrefixOf (t.drop (r - j)) = true := by
  induction t generalizing j with
  | nil =>
    by_cases hp : pat = []
    · simp only [strFindAux, if_pos hp] at h
      injection h with h'
      subst h'
      simp [hp, List.isPrefixOf]
    · simp only [strFindAux, if_neg hp] at h
      cases h
  | cons c t ih =>
    simp only [strFindAux] at h
    by_cases hp : pat.isPrefixOf (c :: t) = true
    · rw [if_pos hp] at h
      injection h with h'
      subst h'
      simpa using hp
    · rw [if_neg hp] at h
      obtain ⟨h1, h2, h3⟩ := ih h
      refine ⟨by omega, by simp; omega, ?_⟩
      have hrj : r - j = (r - (j + 1)) + 1 := by omega
      rw [hrj]
      simpa using h3

theorem strFindAux_none {pat : List Char} (hpat : pat ≠ []) :
    ∀ t j, strFindAux pat t j = none ↔ ∀ u, ¬ pat.isPrefixOf (t.drop u) = true := by
  intro t
  induction t with
  | nil =>
    intro j
    simp only [strFindAux, if_neg hpat, List.drop_nil]
    constructor
    · intro _ u
      cases pat with
      | nil => exact absurd rfl hpat
      | cons a l => simp [List.isPrefixOf]
    · intro _
      trivial
  | cons c t ih =>
    intro j
    simp only [strFindAux]
    by_cases hp : pat.isPrefixOf (c :: t) = true
    · rw [if_pos hp]
      constructor
      · intro h; cases h
      · intro hall
        exact absurd (by simpa using hp) (hall 0)
    · rw [if_neg hp]
      rw [ih (j + 1)]
      constructor
      · intro hall u
        cases u with
        | zero => simpa using hp
        | succ u => simpa using hall u
      · intro hall u
        simpa using hall (u + 1)

/-- A successful find: the returned index is at least the start index, the
pattern fits inside the string there, and the characters match. -/
theorem strFindFrom_spec {s pat : List Char} {i : Nat}
    (h : strFindFrom s pat i ≠ npos) :
    i ≤ strFindFrom s pat i ∧ strFindFrom s pat i + pat.length ≤ s.length ∧
      (s.drop (strFindFrom s pat i)).take pat.length = pat := by
  unfold strFindFrom at h ⊢
  by_cases hi : i ≤ s.length
  · rw [if_pos hi] at h ⊢
    cases haux : strFindAux pat (s.drop i) i with
    | none => simp only [haux] at h; exact absurd rfl h
    | some r =>
      simp only [haux] at h ⊢
      obtain ⟨h1, h2, h3⟩ := strFindAux_some haux
      rw [List.isPrefixOf_iff_prefix] at h3
      rw [List.drop_drop] at h3
      have hri : i + (r - i) = r := by omega
      rw [hri] at h3
      have hlen := h3.length_le
      rw [List.length_drop] at hlen
      rw [List.length_drop] at h2
      refine ⟨h1, by omega, ?_⟩
      rw [List.prefix_iff_eq_take] at h3
      exact h3.symm
  · rw [if_neg hi] at h
    exact absurd rfl h

/-- The find fails exactly when the pattern occurs nowhere at or after the
start index (for a nonempty pattern on a string of realistic size). -/
theorem strFindFrom_ne_npos_iff (s pat : List Char) (i : Nat)
    (hpat : pat ≠ []) (hs : s.length ≤ npos) :
    strFindFrom s pat i ≠ npos ↔
      ∃ j, i ≤ j ∧ j + pat.length ≤ s.length ∧ (s.drop j).take pat.length = pat := by
  have hpat1 : 1 ≤ pat.length := by
    cases pat with
    | nil => exact absurd rfl hpat
    | cons a l => simp
  constructor
  · intro h
    obtain ⟨h1, h2, h3⟩ := strFindFrom_spec h
    exact ⟨strFindFrom s pat i, h1, h2, h3⟩
  · rintro ⟨j, hij, hjlen, hmatch⟩
    unfold strFindFrom
    have hi : i ≤ s.length := by omega
    rw [if_pos hi]
    cases haux : strFindAux pat (s.drop i) i with
    | none =>
      exfalso
      rw [strFindAux_none hpat] at haux
      refine haux (j - i) ?_
      rw [List.drop_drop]
      have hji : i + (j - i) = j := by omega
      rw [hji]
      rw [List.isPrefixOf_iff_prefix, List.prefix_iff_eq_take]
      rw [hmatch]
    | some r =>
      obtain ⟨h1, h2, h3⟩ := strFindAux_some haux
      rw [List.isPrefixOf_iff_prefix] at h3
      have hlen := h3.length_le
      simp only [List.length_drop] at hlen
      simp only [haux, ne_eq]
      intro hr
      subst hr
      have : (s.drop i).length = s.length - i := List.length_drop i s
      unfold npos at *
      omega

/-! Claim C1: fixed-length framing completion.  The comparison at README line
429 is msg.size() >= header_end_pos + content_length on size_t, so the sum
wraps modulo 2^64; a declared length near 2^64 is reachable (stoul converts
the value -1 to 2^64 - 1), and there the code reports Complete as soon as the
buffer reaches the wrapped sum, long before header_end + n bytes arrived.
The claimed iff therefore fails for such lengths and holds exactly when
header_end + n does not overflow. -/

/-- Counterexample to claim C1 as stated: a connection in CONTENT_LENGTH mode
with header_end_pos 19 and declared length 2^64 - 1 (which stoul produces for
the header value -1).  The code wraps 19 + (2^64 - 1) to 18 and reports the
19-byte buffer Complete, although the total buffered bytes are nowhere near
header_end + n, so the iff of the claim is false for this declared length. -/
theorem content_length_wrap_counterexample :
    stoulM ("-1").toList = some 18446744073709551615 ∧
    conn_step
      { msg := ("POST / HTTP/1.1\r\n\r\n").toList, header_end_pos := 19,
        req_type := HTTP_REQ_TYPE.CONTENT_LENGTH,
        content_length := 18446744073709551615 } [] =
      some ({ msg := ("POST / HTTP/1.1\r\n\r\n").toList, header_end_pos := 19,
              req_type := HTTP_REQ_TYPE.CONTENT_LENGTH,
              content_length := 18446744073709551615 }, true) ∧
    ¬(19 + 18446744073709551615 ≤
        ("POST / HTTP/1.1\r\n\r\n").toList.length + ([] : List Char).length) := by
  refine ⟨by decide, by decide, ?_⟩
  intro h
  simp only [List.length_nil] at h
  have hlen : ("POST / HTTP/1.1\r\n\r\n").toList.length = 19 := by decide
  rw [hlen] at h
  omega

/-- Claim C1 amended: for a connection whose framing mode is CONTENT_LENGTH
with declared length n and boundary header_end_pos such that
header_end_pos + n does not overflow size_t (header_end_pos + n < 2^64, true
of every realistic declared length), a step of the state machine reports the
request complete if and only if the total buffered bytes (the old buffer plus
the newly arrived bytes) reach header_end_pos + n.  For larger n, reachable
through a negative Content-Length, the code compares against the wrapped sum
and reports Complete early. -/
theorem content_length_framing_complete_iff
    (d : ActiveConnData) (incoming : List Char) (d2 : ActiveConnData) (c : Bool)
    (hty : d.req_type = HTTP_REQ_TYPE.CONTENT_LENGTH)
    (hnow : d.header_end_pos + d.content_length < WSIZE)
    (hstep : conn_step d incoming = some (d2, c)) :
    c = true ↔ d.header_end_pos + d.content_length ≤ d.msg.length + incoming.length := by
  unfold conn_step conn_classify at hstep
  simp only [hty, reduceCtorEq, if_false, Option.some.injEq, Prod.mk.injEq] at hstep
  obtain ⟨hd2, hc⟩ := hstep
  subst hd2
  subst hc
  simp only [request_complete_check, hty]
  rw [Nat.mod_eq_of_lt hnow]
  simp [List.length_append]

/-- Witness for the amended claim C1 at a concrete connection: headers of 19
bytes, Content-Length 5 (no overflow), two body bytes buffered and three more
arriving. -/
theorem content_length_framing_complete_iff_witness :
    ({ msg := ("POST / HTTP/1.1\r\n\r\nhe").toList, header_end_pos := 19,
       req_type := HTTP_REQ_TYPE.CONTENT_LENGTH, content_length := 5 } :
        ActiveConnData).req_type = HTTP_REQ_TYPE.CONTENT_LENGTH ∧
    19 + 5 < WSIZE ∧
    conn_step
      { msg := ("POST / HTTP/1.1\r\n\r\nhe").toList, header_end_pos := 19,
        req_type := HTTP_REQ_TYPE.CONTENT_LENGTH, content_length := 5 }
      ("llo").toList =
      some ({ msg := ("POST / HTTP/1.1\r\n\r\nhello").toList, header_end_pos := 19,
              req_type := HTTP_REQ_TYPE.CONTENT_LENGTH, content_length := 5 }, true) ∧
    (true = true ↔ 19 + 5 ≤ ("POST / HTTP/1.1\r\n\r\nhe").toList.length + ("llo").toList.length) :=
  ⟨by decide, by decide, by decide,
    content_length_framing_complete_iff
      { msg := ("POST / HTTP/1.1\r\n\r\nhe").toList, header_end_pos := 19,
        req_type := HTTP_REQ_TYPE.CONTENT_LENGTH, content_length := 5 }
      ("llo").toList
      { msg := ("POST / HTTP/1.1\r\n\r\nhello").toList, header_end_pos := 19,
        req_type := HTTP_REQ_TYPE.CONTENT_LENGTH, content_length := 5 }
      true (by decide) (by decide) (by decide)⟩

/-! Claim C7: the framing mode is stable once known. -/

theorem conn_step_preserves_req_type {d : ActiveConnData} {a : List Char}
    {d2 : ActiveConnData} {c : Bool}
    (hty : d.req_type ≠ HTTP_REQ_TYPE.UNKNOWN)
    (hstep : conn_step d a = some (d2, c)) : d2.req_type = d.req_type := by
  unfold conn_step conn_classify at hstep
  simp only [if_neg hty, Option.some.injEq, Prod.mk.injEq] at hstep
  obtain ⟨hd2, _⟩ := hstep
  subst hd2
  rfl

/-- Claim C7: once a connection's framing mode has moved away from UNKNOWN,
no later byte arrival or state-machine step changes it for the rest of the
connection's lifetime (a run stops at the step that completes the request,
when the connection is closed). -/
theorem framing_mode_never_changes (d : ActiveConnData) (arrivals : List (List Char))
    (d2 : ActiveConnData)
    (hty : d.req_type ≠ HTTP_REQ_TYPE.UNKNOWN)
    (hrun : conn_run d arrivals = some d2) :
    d2.req_type = d.req_type := by
  induction arrivals generalizing d with
  | nil =>
    simp only [conn_run, Option.some.injEq] at hrun
    subst hrun
    rfl
  | cons a as ih =>
    simp only [conn_run] at hrun
    cases hstep : conn_step d a with
    | none => rw [hstep] at hrun; cases hrun
    | some p =>
      obtain ⟨d1, c⟩ := p
      rw [hstep] at hrun
      have hpres := conn_step_preserves_req_type hty hstep
      cases c with
      | true =>
        simp only [Option.some.injEq] at hrun
        subst hrun
        exact hpres
      | false =>
        have hty1 : d1.req_type ≠ HTTP_REQ_TYPE.UNKNOWN := by rw [hpres]; exact hty
        rw [ih d1 hty1 hrun, hpres]

/-- Witness for claim C7: a CHUNKED connection stays CHUNKED over an arrival. -/
theorem framing_mode_never_changes_witness :
    ({ msg := ("x").toList, header_end_pos := 5, req_type := HTTP_REQ_TYPE.CHUNKED,
       content_length := 0 } : ActiveConnData).req_type ≠ HTTP_REQ_TYPE.UNKNOWN ∧
    conn_run
      { msg := ("x").toList, header_end_pos := 5, req_type := HTTP_REQ_TYPE.CHUNKED,
        content_length := 0 } [("y").toList] =
      some { msg := ("xy").toList, header_end_pos := 5, req_type := HTTP_REQ_TYPE.CHUNKED,
             content_length := 0 } ∧
    ({ msg := ("xy").toList, header_end_pos := 5, req_type := HTTP_REQ_TYPE.CHUNKED,
       content_length := 0 } : ActiveConnData).req_type =
      ({ msg := ("x").toList, header_end_pos := 5, req_type := HTTP_REQ_TYPE.CHUNKED,
         content_length := 0 } : ActiveConnData).req_type :=
  ⟨by decide, by decide,
    framing_mode_never_changes
      { msg := ("x").toList, header_end_pos := 5, req_type := HTTP_REQ_TYPE.CHUNKED,
        content_length := 0 }
      [("y").toList]
      { msg := ("xy").toList, header_end_pos := 5, req_type := HTTP_REQ_TYPE.CHUNKED,
        content_length := 0 }
      (by decide) (by decide)⟩

/-! Claim C6: dispatch is first-match in registration order with a fixed 404
fallback. -/

/-- Claim C6: for every route table and request, get_response returns the
value of the handler of the first registered route whose method and path both
match the parsed ones exactly, and when no route matches it returns, byte for
byte, the literal 404 response. -/
theorem router_first_match_or_404 (routes : List RouteM) (request : List Char) :
    get_response routes request =
      match routes.find? (fun r =>
          r.method == (parse_http_request request).method &&
          r.path == (parse_http_request request).path) with
      | some r =>
        r.handler (parse_http_request request).method (parse_http_request request).path
      | none =>
        ("HTTP/1.1 404 Not Found\r\nContent-Type: text/plain\r\nContent-Length: 13\r\n\r\n404 Not Found").toList := by
  have hmain : ∀ (rs : List RouteM) (m p : List Char),
      route_loop m p notFound404 rs =
        match rs.find? (fun r => r.method == m && r.path == p) with
        | some r => r.handler m p
        | none => notFound404 := by
    intro rs m p
    induction rs with
    | nil => simp [route_loop, List.find?]
    | cons r rest ih =>
      by_cases hm : r.method = m ∧ r.path = p
      · simp [route_loop, List.find?, hm.1, hm.2]
      · have hcond : (r.method == m && r.path == p) = false := by
          rw [Bool.and_eq_false_iff]
          rcases not_and_or.mp hm with h | h
          · left; exact beq_eq_false_iff_ne.mpr h
          · right; exact beq_eq_false_iff_ne.mpr h
        simp only [route_loop, if_neg hm, List.find?, hcond]
        exact ih
  unfold get_response
  rw [hmain]
  rfl

/-! Claim C9: the worker pool at shutdown.  The transition-system model
pool_step mirrors thread-pool.cc; the trace below is a legal interleaving in
which two tasks are enqueued while the single worker is still blocked inside
the condition wait, shutdown sets the stop flag, and the worker then wakes:
it dequeues and executes task 1, re-checks the while condition, sees the stop
flag and returns with task 2 still queued.  join succeeds and the pool is
fully stopped, so task 2 is silently dropped. -/

/-- Claim C9, evaluated at the failing schedule: after submit 1, submit 2,
shutdown, and one worker pass, the pool has fully stopped (worker done, stop
flag set), both tasks were submitted before shutdown, yet only task 1 was
executed and task 2 remains queued forever. -/
theorem pool_shutdown_drops_queued_task :
    (pool_run [PoolEvent.submit 1, PoolEvent.submit 2, PoolEvent.shutdown,
        PoolEvent.workerStep]).stopFlag = true ∧
    (pool_run [PoolEvent.submit 1, PoolEvent.submit 2, PoolEvent.shutdown,
        PoolEvent.workerStep]).workerDone = true ∧
    (pool_run [PoolEvent.submit 1, PoolEvent.submit 2, PoolEvent.shutdown,
        PoolEvent.workerStep]).submitted = [1, 2] ∧
    (pool_run [PoolEvent.submit 1, PoolEvent.submit 2, PoolEvent.shutdown,
        PoolEvent.workerStep]).executed = [1] ∧
    2 ∉ (pool_run [PoolEvent.submit 1, PoolEvent.submit 2, PoolEvent.shutdown,
        PoolEvent.workerStep]).executed := by decide

/-! Claims C3 and C10: the line scan of the string_view get_header_value. -/

theorem findCRLF_join {l : List Char} (r : List Char) (h : containsCRLF l = false) :
    findCRLF (l ++ '\r' :: '\n' :: r) = some (l, r) := by
  induction l with
  | nil => simp [findCRLF]
  | cons c l ih =>
    simp only [containsCRLF, Bool.or_eq_false_iff] at h
    obtain ⟨h1, h2⟩ := h
    simp only [List.cons_append, findCRLF, List.append_eq]
    have hcond : ¬(c = '\r' ∧ (l ++ '\r' :: '\n' :: r).head? = some '\n') := by
      rintro ⟨rfl, hh⟩
      cases l with
      | nil => simp at hh
      | cons d t =>
        simp only [List.cons_append, List.head?, Option.some.injEq] at hh
        rw [hh] at h1
        simp at h1
    rw [if_neg hcond, ih h2]

theorem findCRLF_none {t : List Char} (h : containsCRLF t = false) : findCRLF t = none := by
  induction t with
  | nil => rfl
  | cons c rest ih =>
    simp only [containsCRLF, Bool.or_eq_false_iff] at h
    obtain ⟨h1, h2⟩ := h
    simp only [findCRLF]
    have hcond : ¬(c = '\r' ∧ rest.head? = some '\n') := by
      rintro ⟨rfl, hh⟩
      rw [hh] at h1
      simp at h1
    rw [if_neg hcond, ih h2]

/-- One step of the header scan: on a block starting with a CRLF-free line and
its CRLF terminator, get_header_value either answers from that line or moves
on to the rest of the block. -/
theorem get_header_value_step {l : List Char} (r name : List Char)
    (h : containsCRLF l = false) :
    get_header_value (l ++ '\r' :: '\n' :: r) name =
      if header_line_matches l name then header_line_value l name
      else get_header_value r name := by
  rw [get_header_value]
  rw [findCRLF_join r h]

/-- The header scan over CRLF-terminated lines followed by an unterminated
trailing segment answers from the lines alone, first match first. -/
theorem get_header_value_join_tail (lines : List (List Char)) (tail name : List Char)
    (hl : ∀ l ∈ lines, containsCRLF l = false) (ht : containsCRLF tail = false) :
    get_header_value (joinCRLF lines ++ tail) name = find_header_spec lines name := by
  induction lines with
  | nil =>
    simp only [joinCRLF, List.foldr_nil, List.nil_append]
    rw [get_header_value]
    rw [findCRLF_none ht]
    rfl
  | cons l ls ih =>
    have hjoin : joinCRLF (l :: ls) ++ tail = l ++ '\r' :: '\n' :: (joinCRLF ls ++ tail) := by
      simp [joinCRLF]
    rw [hjoin]
    rw [get_header_value_step (joinCRLF ls ++ tail) name (hl l (by simp))]
    rw [find_header_spec]
    by_cases hm : header_line_matches l name = true
    · rw [if_pos hm, if_pos hm]
    · rw [if_neg hm, if_neg hm]
      exact ih (fun x hx => hl x (by simp [hx]))

/-- Claim C3: over every header block made of well-formed CRLF-terminated
lines (no line containing a CRLF itself) and every header name, the
string_view get_header_value behaves as the case-insensitive line-by-line
first-match scan: it returns the value of the first line whose text before
the expected colon equals the name case-insensitively, with exactly the
leading spaces and tabs stripped, and the empty (not-found) value when no
line matches; a line without the expected colon after the candidate name is a
non-match, not an error. -/
theorem find_header_line_scan (lines : List (List Char)) (name : List Char)
    (hl : ∀ l ∈ lines, containsCRLF l = false) :
    get_header_value (joinCRLF lines) name = find_header_spec lines name := by
  have h := get_header_value_join_tail lines [] name hl rfl
  simpa using h

/-- Witness for claim C3 on a concrete two-line block with a mixed-case
header name and a tab-and-space padded value. -/
theorem find_header_line_scan_witness :
    (∀ l ∈ [("Host: x").toList, ("Content-Length: \t 42").toList],
        containsCRLF l = false) ∧
    get_header_value (joinCRLF [("Host: x").toList, ("Content-Length: \t 42").toList])
        ("content-length").toList =
      find_header_spec [("Host: x").toList, ("Content-Length: \t 42").toList]
        ("content-length").toList ∧
    find_header_spec [("Host: x").toList, ("Content-Length: \t 42").toList]
        ("content-length").toList = ("42").toList :=
  ⟨by decide,
    find_header_line_scan [("Host: x").toList, ("Content-Length: \t 42").toList]
      ("content-length").toList (by decide),
    by decide⟩

/-- Claim C10: a header is only ever found on a CRLF-terminated line: when the
lines that are CRLF-terminated all fail to match, get_header_value returns
the not-found (empty) value no matter what unterminated text follows them --
in particular even when that trailing text is exactly a matching name, colon
and value. -/
theorem unterminated_header_line_not_found (lines : List (List Char))
    (tail name : List Char)
    (hl : ∀ l ∈ lines, containsCRLF l = false)
    (hm : ∀ l ∈ lines, header_line_matches l name = false)
    (ht : containsCRLF tail = false) :
    get_header_value (joinCRLF lines ++ tail) name = [] := by
  rw [get_header_value_join_tail lines tail name hl ht]
  induction lines with
  | nil => rfl
  | cons l ls ih =>
    rw [find_header_spec]
    rw [if_neg (by rw [hm l (by simp)]; exact Bool.false_ne_true)]
    exact ih (fun x hx => hl x (by simp [hx])) (fun x hx => hm x (by simp [hx]))

/-- Witness for claim C10: the block consists of one non-matching terminated
line followed by a matching but unterminated line; the lookup still answers
not-found. -/
theorem unterminated_header_line_not_found_witness :
    (∀ l ∈ [("Host: x").toList], containsCRLF l = false) ∧
    (∀ l ∈ [("Host: x").toList],
        header_line_matches l (("content-length").toList) = false) ∧
    containsCRLF ("Content-Length: 42").toList = false ∧
    get_header_value (joinCRLF [("Host: x").toList] ++ ("Content-Length: 42").toList)
      ("content-length").toList = [] :=
  ⟨by decide, by decide, by decide,
    unterminated_header_line_not_found [("Host: x").toList]
      ("Content-Length: 42").toList ("content-length").toList
      (by decide) (by decide) (by decide)⟩

/-! Claim C2: chunked framing completion.  The code is more permissive than
the claim's wording: the first check only compares the five bytes at
header_end (anything may follow them), and the search for CRLF 0 CRLF CRLF
accepts an occurrence anywhere at or after header_end, not only as a suffix
of the buffer. -/

/-- Counterexample to claim C2 as stated: with headers of 18 bytes and body
0 CR LF CR LF X, the code reports completion (the five bytes at header_end
are the terminator) although the body is not exactly the terminator and the
buffer does not end in CRLF followed by the terminator. -/
theorem chunked_terminator_claim_counterexample :
    body_contains_chunked_terminator ("GET / HTTP/1.1\r\n\r\n0\r\n\r\nX").toList 18 = true ∧
    chunked_complete_claim ("GET / HTTP/1.1\r\n\r\n0\r\n\r\nX").toList 18 = false := by
  decide

/-- Claim C2 amended: chunked framing reports complete exactly when either
the five bytes starting at header_end are the terminator 0 CR LF CR LF
(regardless of what follows), or the seven-byte sequence CR LF 0 CR LF CR LF
occurs starting at any position at or after header_end (not necessarily as a
suffix), for buffers of realistic size. -/
theorem chunked_terminator_characterization (msg : List Char) (he : Nat)
    (hs : msg.length ≤ npos) :
    body_contains_chunked_terminator msg he = true ↔
      ((he + 5 ≤ msg.length ∧ (msg.drop he).take 5 = ztermB) ∨
       ∃ j, he ≤ j ∧ j + 7 ≤ msg.length ∧ (msg.drop j).take 7 = crlfztermB) := by
  have hne : crlfztermB ≠ [] := by decide
  have h7 : crlfztermB.length = 7 := by rfl
  have hfind := strFindFrom_ne_npos_iff msg crlfztermB he hne hs
  rw [h7] at hfind
  unfold body_contains_chunked_terminator
  by_cases hlt : msg.length < he
  · rw [if_pos hlt]
    constructor
    · intro h; cases h
    · rintro (⟨h1, _⟩ | ⟨j, hj1, hj2, _⟩) <;> omega
  · rw [if_neg hlt]
    rw [Bool.or_eq_true]
    constructor
    · rintro (h | h)
      · left
        by_cases hle : he + 5 ≤ msg.length
        · rw [if_pos hle] at h
          exact ⟨hle, by simpa using h⟩
        · rw [if_neg hle] at h
          cases h
      · right
        apply hfind.mp
        intro hx
        rw [hx] at h
        simp at h
    · rintro (⟨h1, h2⟩ | h)
      · left
        rw [if_pos h1]
        simpa using h2
      · right
        have hne2 := hfind.mpr h
        simp only [Bool.not_eq_true', beq_eq_false_iff_ne, ne_eq]
        exact hne2

/-- Witness for the amended claim C2 at a concrete buffer whose body is
exactly the empty chunked payload. -/
theorem chunked_terminator_characterization_witness :
    ("GET / HTTP/1.1\r\n\r\n0\r\n\r\n").toList.length ≤ npos ∧
    (body_contains_chunked_terminator ("GET / HTTP/1.1\r\n\r\n0\r\n\r\n").toList 18 = true ↔
      ((18 + 5 ≤ ("GET / HTTP/1.1\r\n\r\n0\r\n\r\n").toList.length ∧
        (("GET / HTTP/1.1\r\n\r\n0\r\n\r\n").toList.drop 18).take 5 = ztermB) ∨
       ∃ j, 18 ≤ j ∧ j + 7 ≤ ("GET / HTTP/1.1\r\n\r\n0\r\n\r\n").toList.length ∧
         (("GET / HTTP/1.1\r\n\r\n0\r\n\r\n").toList.drop j).take 7 = crlfztermB)) :=
  ⟨by decide,
    chunked_terminator_characterization ("GET / HTTP/1.1\r\n\r\n0\r\n\r\n").toList 18
      (by decide)⟩

/-- When the first character of the pattern occurs nowhere in the string, the
find fails from every start index. -/
theorem strFindFrom_head_not_mem {s : List Char} (pat : List Char) {c : Char}
    (i : Nat) (hc : c ∉ s) :
    strFindFrom s (c :: pat) i = npos := by
  unfold strFindFrom
  by_cases hi : i ≤ s.length
  · rw [if_pos hi]
    cases haux : strFindAux (c :: pat) (s.drop i) i with
    | none => rfl
    | some r =>
      exfalso
      obtain ⟨_, _, h3⟩ := strFindAux_some haux
      rw [List.isPrefixOf_iff_prefix] at h3
      obtain ⟨t, ht⟩ := h3
      have hmem : c ∈ (s.drop i).drop (r - i) := by
        rw [← ht]; simp
      exact hc (List.mem_of_mem_drop (List.mem_of_mem_drop hmem))
  · rw [if_neg hi]

/-! Claim C4: malformed request lines.  parse_http_request performs no
validation and defines no error: on a first line with fewer than two spaces
the find calls return npos, the size_t arithmetic wraps, and a parsed request
is still produced; the request is then dispatched and answered (with the 404
fallback when no route matches) instead of being rejected. -/

/-- Counterexample to claim C4 as stated: the input has zero spaces in its
first line, yet parse_http_request produces a full parsed request (no
MalformedRequestLine error exists anywhere in the code) and get_response
still produces the 404 response for it, so the connection is answered, not
rejected. -/
theorem malformed_request_line_counterexample :
    ("GETindex\r\n").toList.count ' ' = 0 ∧
    parse_http_request ("GETindex\r\n").toList =
      { method := ("GETindex\r\n").toList, path := ("GETindex\r\n").toList,
        version := ("GETindex").toList, body := [] } ∧
    get_response [] ("GETindex\r\n").toList = notFound404 := by decide

/-- Claim C4 amended: a first line with fewer than two spaces does not fail;
in the extreme case of a request containing no space at all,
parse_http_request returns the whole input as both method and path, and the
text before the first CRLF (or the whole input when there is none) as the
version, through npos wrap-around arithmetic. -/
theorem parse_request_line_no_space (request : List Char)
    (hsp : ' ' ∉ request) (hlen : request.length ≤ npos) :
    (parse_http_request request).method = request ∧
    (parse_http_request request).path = request ∧
    (parse_http_request request).version = request.take (strFindFrom request crlfB 0) := by
  have hme : strFindFrom request [' '] 0 = npos := strFindFrom_head_not_mem [] 0 hsp
  have hmod : (npos + 1) % WSIZE = 0 := by decide
  have hpe : strFindFrom request [' '] ((npos + 1) % WSIZE) = npos := by
    rw [hmod]; exact strFindFrom_head_not_mem [] 0 hsp
  have hsub0 : sub64 npos npos = 0 := by decide
  have hsub1 : sub64 0 1 = npos := by decide
  unfold parse_http_request
  simp only [hme, hpe, hmod, hsub0, hsub1]
  refine ⟨?_, ?_, ?_⟩
  · unfold substrM
    simp only [List.drop_zero]
    exact List.take_of_length_le hlen
  · unfold substrM
    simp only [List.drop_zero]
    exact List.take_of_length_le hlen
  · by_cases hveq : strFindFrom request crlfB 0 = npos
    · rw [hveq, hsub0, hsub1]
      rfl
    · obtain ⟨hv1, hv2, hv3⟩ := strFindFrom_spec hveq
      have hcl : crlfB.length = 2 := by rfl
      rw [hcl] at hv2
      have hk1 : strFindFrom request crlfB 0 + 1 < WSIZE := by
        unfold npos at hlen
        unfold WSIZE
        omega
      have hs1 : sub64 (strFindFrom request crlfB 0) npos = strFindFrom request crlfB 0 + 1 := by
        unfold sub64 npos WSIZE
        unfold WSIZE at hk1
        rw [Nat.add_sub_assoc (by omega)]
        have : 18446744073709551616 - 18446744073709551615 = 1 := by omega
        rw [this]
        exact Nat.mod_eq_of_lt hk1
      have hs2 : sub64 (strFindFrom request crlfB 0 + 1) 1 = strFindFrom request crlfB 0 := by
        unfold sub64 WSIZE
        unfold WSIZE at hk1
        have h1 : strFindFrom request crlfB 0 + 1 + 18446744073709551616 - 1 =
            strFindFrom request crlfB 0 + 18446744073709551616 := by omega
        rw [h1, Nat.add_mod_right]
        exact Nat.mod_eq_of_lt (by omega)
      rw [hs1, hs2]
      unfold substrM
      simp only [List.drop_zero]

/-- Witness for the amended claim C4 at the spaceless input. -/
theorem parse_request_line_no_space_witness :
    ' ' ∉ ("GETindex\r\n").toList ∧
    ("GETindex\r\n").toList.length ≤ npos ∧
    ((parse_http_request ("GETindex\r\n").toList).method = ("GETindex\r\n").toList ∧
     (parse_http_request ("GETindex\r\n").toList).path = ("GETindex\r\n").toList ∧
     (parse_http_request ("GETindex\r\n").toList).version =
       ("GETindex\r\n").toList.take (strFindFrom ("GETindex\r\n").toList crlfB 0)) :=
  ⟨by decide, by decide,
    parse_request_line_no_space ("GETindex\r\n").toList (by decide) (by decide)⟩

/-! Claim C5: a non-numeric Content-Length.  In read_full_request the stoul
failure is caught and the function returns the headers-only buffer exactly as
it does for a request with no body at all; nothing is torn down and the
request is subsequently dispatched and answered.  (A negative value such as
-1 is not even a parse failure: stoul wraps it to a huge unsigned count.  In
the epoll variant the same situation is worse still: the stoul call there is
wrapped in no try-catch at all, modelled by conn_classify returning none.) -/

/-- Claim C5 amended: when the Transfer-Encoding value does not contain
"chunked", the Content-Length header value is nonempty and stoul rejects it,
read_full_request_tail returns the buffer truncated to the end of the headers
as an ordinary request string, the same result as for a request with no body;
no failure is signalled. -/
theorem malformed_content_length_returns_headers
    (request_buffer net : List Char) (dpos : Nat)
    (hdpos : strFindFrom request_buffer delimB 0 = dpos)
    (hte : strFindFrom (get_header_value_cc (request_buffer.take dpos) teLowName)
      chunkedB 0 = npos)
    (hcl : get_header_value_cc (request_buffer.take dpos) clLowName ≠ [])
    (hbad : stoulM (get_header_value_cc (request_buffer.take dpos) clLowName) = none) :
    read_full_request_tail request_buffer net = request_buffer.take (dpos + 4) := by
  simp only [read_full_request_tail]
  rw [hdpos, hte]
  rw [if_neg (by simp)]
  rw [if_pos hcl]
  rw [hbad]

/-- Counterexample to claim C5 as stated: on a request whose Content-Length
value is the non-numeric text abc, read_full_request_tail returns the
headers-plus-delimiter buffer as an ordinary request (dropping the pre-read
body bytes), and get_response then produces the 404 response for it -- the
connection is answered, not torn down without a response. -/
theorem malformed_content_length_counterexample :
    read_full_request_tail
      ("POST / HTTP/1.1\r\ncontent-length: abc\r\nhost: x\r\n\r\nBODY").toList [] =
      ("POST / HTTP/1.1\r\ncontent-length: abc\r\nhost: x\r\n\r\n").toList ∧
    get_response [] ("POST / HTTP/1.1\r\ncontent-length: abc\r\nhost: x\r\n\r\n").toList =
      notFound404 := by decide

/-- Witness for the amended claim C5 at the concrete request of the
counterexample. -/
theorem malformed_content_length_returns_headers_witness :
    strFindFrom ("POST / HTTP/1.1\r\ncontent-length: abc\r\nhost: x\r\n\r\nBODY").toList
      delimB 0 = 45 ∧
    strFindFrom
      (get_header_value_cc
        (("POST / HTTP/1.1\r\ncontent-length: abc\r\nhost: x\r\n\r\nBODY").toList.take 45)
        teLowName) chunkedB 0 = npos ∧
    get_header_value_cc
      (("POST / HTTP/1.1\r\ncontent-length: abc\r\nhost: x\r\n\r\nBODY").toList.take 45)
      clLowName ≠ [] ∧
    stoulM (get_header_value_cc
      (("POST / HTTP/1.1\r\ncontent-length: abc\r\nhost: x\r\n\r\nBODY").toList.take 45)
      clLowName) = none ∧
    read_full_request_tail
      ("POST / HTTP/1.1\r\ncontent-length: abc\r\nhost: x\r\n\r\nBODY").toList [] =
      ("POST / HTTP/1.1\r\ncontent-length: abc\r\nhost: x\r\n\r\nBODY").toList.take (45 + 4) :=
  ⟨by decide, by decide, by decide, by decide,
    malformed_content_length_returns_headers
      ("POST / HTTP/1.1\r\ncontent-length: abc\r\nhost: x\r\n\r\nBODY").toList [] 45
      (by decide) (by decide) (by decide) (by decide)⟩

/-! Claim C8: the buffered-size maximum.  read_full_request caps only the
header-search phase at MAX_REQUEST_SIZE (65536): when the header terminator
is not found within the first 65536 bytes it stops reading and returns those
bytes as an ordinary request string; there is no Failed state, the connection
is then answered (with the 404 fallback when no route matches), and the body
phase applies no maximum at all.  The epoll variant has no maximum either. -/

theorem read_headers_loop_no_cr :
    ∀ (n : Nat) (net buf : List Char), net.length = n →
      '\r' ∉ buf → '\r' ∉ net → buf.length ≤ 65536 → 65536 ≤ buf.length + net.length →
      read_headers_loop buf net =
        (buf ++ net.take (65536 - buf.length), net.drop (65536 - buf.length),
          HdrExit.maxed) := by
  intro n
  induction n using Nat.strong_induction_on with
  | _ n ih =>
    intro net buf hn hcb hcn hb htot
    by_cases h65 : buf.length < 65536
    · have hne : net ≠ [] := by
        intro hx
        rw [hx] at htot
        simp at htot
        omega
      have hcb2 : '\r' ∉ buf ++ net.take (min 1024 (65536 - buf.length)) := by
        intro hmem
        rcases List.mem_append.mp hmem with hx | hx
        · exact hcb hx
        · exact hcn (List.mem_of_mem_take hx)
      have hdelim : delimB = '\r' :: ('\n' :: '\r' :: '\n' :: []) := by rfl
      have hcond : ¬(4 ≤ (buf ++ net.take (min 1024 (65536 - buf.length))).length ∧
          strFindFrom (buf ++ net.take (min 1024 (65536 - buf.length))) delimB
            (if 3 ≤ buf.length then buf.length - 3 else 0) ≠ npos) := by
        rintro ⟨-, hfind⟩
        refine hfind ?_
        rw [hdelim]
        exact strFindFrom_head_not_mem _ _ hcb2
      rw [read_headers_loop.eq_def, dif_pos h65, dif_neg hne, if_neg hcond]
      have hnpos : 0 < net.length := List.length_pos.mpr hne
      have hmin1 : 1 ≤ min 1024 (65536 - buf.length) := by omega
      have hkle : min 1024 (65536 - buf.length) ≤ 65536 - buf.length := by omega
      have hkL : min 1024 (65536 - buf.length) ≤ net.length := by omega
      have hlt : (net.drop (min 1024 (65536 - buf.length))).length < n := by
        simp only [List.length_drop]
        omega
      have hlen2 : (buf ++ net.take (min 1024 (65536 - buf.length))).length =
          buf.length + min 1024 (65536 - buf.length) := by
        rw [List.length_append, List.length_take, Nat.min_eq_left hkL]
      rw [ih _ hlt _ _ rfl hcb2
        (fun hx => hcn (List.mem_of_mem_drop hx))
        (by rw [hlen2]; omega)
        (by rw [hlen2]; simp only [List.length_drop]; omega)]
      rw [hlen2]
      have harith : 65536 - (buf.length + min 1024 (65536 - buf.length)) =
          (65536 - buf.length) - min 1024 (65536 - buf.length) := by omega
      rw [harith]
      have hsum : min 1024 (65536 - buf.length) +
          ((65536 - buf.length) - min 1024 (65536 - buf.length)) =
          65536 - buf.length := by omega
      have e1 : (buf ++ net.take (min 1024 (65536 - buf.length))) ++
          (net.drop (min 1024 (65536 - buf.length))).take
            ((65536 - buf.length) - min 1024 (65536 - buf.length)) =
          buf ++ net.take (65536 - buf.length) := by
        rw [List.append_assoc, ← List.take_add, hsum]
      have e2 : (net.drop (min 1024 (65536 - buf.length))).drop
            ((65536 - buf.length) - min 1024 (65536 - buf.length)) =
          net.drop (65536 - buf.length) := by
        rw [List.drop_drop, hsum]
      rw [e1, e2]
    · rw [read_headers_loop.eq_def, dif_neg h65]
      have hb0 : buf.length = 65536 := by omega
      rw [hb0]
      simp

/-- Claim C8 amended: when the peer streams at least 65536 bytes containing
no carriage return (so the header terminator can never be found),
read_full_request stops at exactly 65536 buffered bytes and returns them as
an ordinary request string; no Failed state exists, nothing is torn down by
this function, and the buffer is simply truncated at the maximum. -/
theorem oversized_request_truncated_not_failed (net : List Char)
    (hcr : '\r' ∉ net) (hlen : 65536 ≤ net.length) :
    read_full_request net = net.take 65536 := by
  unfold read_full_request
  rw [read_headers_loop_no_cr net.length net [] rfl (by simp) hcr (by simp) (by simpa)]
  simp

/-- Counterexample to claim C8 as stated: a peer streaming 70000 bytes of the
letter a exceeds every configured maximum, yet the result is the first 65536
bytes returned as an ordinary request, and get_response then produces the 404
response for it -- a response is produced and no connection-failure state is
ever entered. -/
theorem oversized_request_counterexample :
    read_full_request (List.replicate 70000 'a') = List.replicate 65536 'a' ∧
    get_response [] (List.replicate 65536 'a') = notFound404 := by
  have hnocr : '\r' ∉ List.replicate 70000 'a' :=
    fun hmem => absurd (List.mem_replicate.mp hmem).2 (by decide)
  have hlen : 65536 ≤ (List.replicate 70000 'a').length := by
    rw [List.length_replicate]
    omega
  constructor
  · rw [oversized_request_truncated_not_failed (List.replicate 70000 'a') hnocr hlen]
    calc (List.replicate 70000 'a').take 65536
        = List.replicate (min 65536 70000) 'a' := List.take_replicate 'a' 65536 70000
      _ = List.replicate 65536 'a' := by rw [Nat.min_eq_left (by omega)]
  · simp only [get_response]
    rfl

/-- Witness for the amended claim C8 at a concrete 65536-byte stream. -/
theorem oversized_request_truncated_not_failed_witness :
    '\r' ∉ List.replicate 65536 'b' ∧
    65536 ≤ (List.replicate 65536 'b').length ∧
    read_full_request (List.replicate 65536 'b') = (List.replicate 65536 'b').take 65536 :=
  ⟨fun hmem => absurd (List.mem_replicate.mp hmem).2 (by decide),
    (List.length_replicate 65536 'b').symm.le,
    oversized_request_truncated_not_failed (List.replicate 65536 'b')
      (fun hmem => absurd (List.mem_replicate.mp hmem).2 (by decide))
      (List.length_replicate 65536 'b').symm.le⟩
